import Mathlib

/-!
Verification development for the personalized-financial-assistant core
(`src/app.py`, `src/save_log.py`): the transaction parser and recorder,
the spending aggregation and forecasting functions, the budget advice
function, and the receipt generator.

Modelling conventions:
* Python strings are `String`/`List Char`; the character classes `\d` and
  `\w` of the parsing pattern are modelled as ASCII (`Char.isDigit`,
  alphanumeric-or-underscore), matching the intended input alphabet.
* Monetary values (Python floats fed from SQL decimals) are idealised as
  exact rationals `ℚ`.
* The database is a record of lists of rows; `cursor.fetchone()` is
  `List.find?`, a `SELECT ... WHERE` is `List.filter`.  Date-window
  conditions (`date >= DATE_SUB(CURDATE(), INTERVAL n MONTH)`) are
  modelled by an explicit cutoff date parameter.
* Wall-clock values (`datetime.datetime.now()`, `datetime.date.today()`)
  and the textual rendering of a float are passed in as parameters.
* File side effects (audit log append, PDF output) are modelled as values:
  the list of appended log lines, the list of written file paths.
-/

/-- Calendar date (no time component), as stored in the `date` column. -/
structure Date where
  year : Nat
  month : Nat
  day : Nat
deriving DecidableEq

/-- A row of the `Transactions` table. -/
structure Txn where
  transaction_id : Nat
  user_id : Nat
  date : Date
  amount : ℚ
  payment_method : String
  description : String
deriving DecidableEq

/-- A row of the `Users` table (the columns this core reads). -/
structure UserRow where
  user_id : Nat
  fname : String
  lname : String
deriving DecidableEq

/-- A row of the `Budgets` table (the columns this core reads). -/
structure BudgetRow where
  user_id : Nat
  month : String
  salary : ℚ
  expense_limit : ℚ
  savings_goal : ℚ
deriving DecidableEq

/-- The three tables the core queries. -/
structure DB where
  users : List UserRow
  budgets : List BudgetRow
  transactions : List Txn
deriving DecidableEq

/-! ## The transaction-intake pattern

`record_transaction` runs
`re.search(r"User (\d+) spent (\d+\.?\d*) ETB for (.+) via (\w+) today", user_input)`.
We embed this one fixed pattern operationally: `reSearch` scans start
positions left to right (Python `re.search`), and at each position
`matchAt` matches the pattern with Python's greedy backtracking
semantics.  For the runs `(\d+)`, `\d*` and `(\w+)` each followed by a
character that is not in the class (a space or a dot), greedy matching
with backtracking coincides with maximal munch, which is how they are
written here.  The only component needing real backtracking is the
greedy `(.+)` before ` via (\w+) today`: `descSearch` tries candidate
description lengths from the longest down, exactly as the greedy engine
does. -/

/-- `\w` (ASCII): letters, digits and underscore. -/
def isWordCh (c : Char) : Bool := c.isAlphanum || c = '_'

/-- Consume an exact literal prefix, returning the remainder. -/
def dropLit : List Char → List Char → Option (List Char)
  | [], cs => some cs
  | _ :: _, [] => none
  | l :: ls, c :: cs => if c = l then dropLit ls cs else none

/-- `\.?\d*` after the integer digits of the amount: an optional dot with
a maximal (possibly empty) digit run. -/
def takeFrac : List Char → List Char × List Char
  | [] => ([], [])
  | c :: cs =>
    if c = '.' then (c :: cs.takeWhile Char.isDigit, cs.dropWhile Char.isDigit)
    else ([], c :: cs)

/-- Match ` via (\w+) today` at the current position, returning the
payment-method group and the remainder after ` today`. -/
def tryVia (cs : List Char) : Option (List Char × List Char) :=
  match dropLit " via ".data cs with
  | none => none
  | some cs1 =>
    let w := cs1.takeWhile isWordCh
    if w.isEmpty then none
    else
      match dropLit " today".data (cs1.dropWhile isWordCh) with
      | none => none
      | some rest => some (w, rest)

/-- Greedy `(.+) via (\w+) today`: try description lengths from `i` down
to 1; a candidate is valid when it contains no newline (the `.` class)
and the tail pattern matches right after it.  Returns
(description, payment method, remainder). -/
def descSearch (cs : List Char) : Nat → Option (List Char × List Char × List Char)
  | 0 => none
  | i + 1 =>
    if (cs.take (i + 1)).all (fun c => c ≠ '\n') then
      match tryVia (cs.drop (i + 1)) with
      | some (w, rest) => some (cs.take (i + 1), w, rest)
      | none => descSearch cs i
    else descSearch cs i

/-- The four capture groups of the pattern, and the remainder of the
input after the match. -/
structure MatchGroups where
  g1 : List Char
  g2 : List Char
  g3 : List Char
  g4 : List Char
  rest : List Char
deriving DecidableEq

/-- Match the whole pattern anchored at the current position. -/
def matchAt (cs : List Char) : Option MatchGroups :=
  match dropLit "User ".data cs with
  | none => none
  | some cs1 =>
    let g1 := cs1.takeWhile Char.isDigit
    if g1.isEmpty then none
    else
      match dropLit " spent ".data (cs1.dropWhile Char.isDigit) with
      | none => none
      | some cs2 =>
        let d1 := cs2.takeWhile Char.isDigit
        if d1.isEmpty then none
        else
          let fr := takeFrac (cs2.dropWhile Char.isDigit)
          match dropLit " ETB for ".data fr.2 with
          | none => none
          | some cs3 =>
            match descSearch cs3 cs3.length with
            | none => none
            | some (g3, g4, rest) => some ⟨g1, d1 ++ fr.1, g3, g4, rest⟩

/-- `re.search`: try the pattern at each start position, left to right,
returning the first (leftmost) match. -/
def reSearch : List Char → Option MatchGroups
  | [] => matchAt []
  | c :: cs =>
    match matchAt (c :: cs) with
    | some g => some g
    | none => reSearch cs

/-- Whether the input, as a whole string, is a sentence of the intake
grammar: the pattern matches at position 0 and consumes the entire
input. -/
def fullGrammarForm (s : String) : Bool :=
  match matchAt s.data with
  | some g => g.rest.isEmpty
  | none => false

/-- `int(...)` on a digit string. -/
def digitsToNat (g : List Char) : Nat :=
  g.foldl (fun n c => 10 * n + (c.toNat - '0'.toNat)) 0

/-- `float(...)` on the matched amount group (digits with an optional
dot and further digits), idealised as an exact rational. -/
def decValue (g : List Char) : ℚ :=
  let ip := g.takeWhile Char.isDigit
  match g.dropWhile Char.isDigit with
  | '.' :: f => (digitsToNat ip : ℚ) + (digitsToNat f : ℚ) / (10 : ℚ) ^ f.length
  | _ => (digitsToNat ip : ℚ)

/-! ## Ledger writer (`record_transaction` + `save_log.log_transaction`) -/

/-- `strftime("%Y-%m-%d")`. -/
def pad2 (n : Nat) : String := if n < 10 then "0" ++ Nat.repr n else Nat.repr n

/-- `strftime("%Y-%m-%d")` on a date. -/
def formatDate (d : Date) : String :=
  Nat.repr d.year ++ "-" ++ pad2 d.month ++ "-" ++ pad2 d.day

/-- The audit log line built by `save_log.log_transaction`; `now` is the
rendering of `datetime.datetime.now()` and `amountStr` the rendering of
the float amount, both supplied by the caller of the model. -/
def log_transaction (now : String) (uid : Nat) (date : String) (amountStr : String)
    (pm : String) (desc : String) : String :=
  now ++ " | User: " ++ Nat.repr uid ++ " | Date: " ++ date ++ " | Amount: $" ++ amountStr ++
    " | Payment: " ++ pm ++ " | Desc: " ++ desc ++ "\n"

/-- The fixed user-facing message returned on a parse failure. -/
def invalidFormatMsg : String :=
  "Invalid format. Use: 'User [ID] spent [Amount] ETB for [Purpose] via [Payment Method] today.'"

/-- Outcome of `record_transaction`: connection failure, parse failure
with its message, or the returned transaction record. -/
inductive RecordResult where
  | connError
  | parseError (msg : String)
  | ok (t : Txn)
deriving DecidableEq

/-- `record_transaction(user_input)`.  `connOk` models whether
`create_connection()` succeeds; `today` is `datetime.date.today()`;
`now` and `fmtAmt` render the wall clock and the float amount for the
log line; `newId` is the auto-increment id storage assigns to the
inserted row; `db` is the `Transactions` table and `log` the audit log
file contents (as lines).  Returns the result together with the updated
table and log. -/
def record_transaction (connOk : Bool) (today : Date) (now : String) (fmtAmt : ℚ → String)
    (newId : Nat) (input : String) (db : List Txn) (log : List String) :
    RecordResult × List Txn × List String :=
  if !connOk then (.connError, db, log)
  else
    match reSearch input.data with
    | none => (.parseError invalidFormatMsg, db, log)
    | some g =>
      let uid := digitsToNat g.g1
      let amt := decValue g.g2
      let t : Txn := ⟨newId, uid, today, amt, g.g4.asString, g.g3.asString⟩
      (.ok t, db ++ [t],
        log ++ [log_transaction now uid (formatDate today) (fmtAmt amt) g.g4.asString g.g3.asString])

/-! ## Spending aggregator (`analyze_spending`)

The source loads the user's window of transactions ordered by date
ascending, then computes with pandas:
`df.groupby("month")["amount"].sum()` — whose group keys are the
*sorted* distinct month-name strings (pandas sorts group keys) — and
`df["payment_method"].value_counts()`.  The aggregation functions below
take the window (the rows returned by the query) as input. -/

/-- `strftime("%B")`: the English month name of a date's month number. -/
def monthName : Nat → String
  | 1 => "January"
  | 2 => "February"
  | 3 => "March"
  | 4 => "April"
  | 5 => "May"
  | 6 => "June"
  | 7 => "July"
  | 8 => "August"
  | 9 => "September"
  | 10 => "October"
  | 11 => "November"
  | 12 => "December"
  | _ => ""

/-- The month name of a transaction (the `df["month"]` column). -/
def monthOf (t : Txn) : String := monthName t.date.month

/-- The `df["month"]` column of a window. -/
def monthNames (w : List Txn) : List String := w.map monthOf

/-- Distinct elements in order of first appearance. -/
def uniqueFirstAux (seen : List String) : List String → List String
  | [] => []
  | x :: xs => if x ∈ seen then uniqueFirstAux seen xs else x :: uniqueFirstAux (x :: seen) xs

/-- Distinct elements in order of first appearance. -/
def uniqueFirst (l : List String) : List String := uniqueFirstAux [] l

/-- Code-point lexicographic comparison of character lists (the string
order Python uses when pandas sorts group keys). -/
def strLeCh : List Char → List Char → Bool
  | [], _ => true
  | _ :: _, [] => false
  | a :: as, b :: bs => if a = b then strLeCh as bs else decide (a < b)

/-- Code-point lexicographic order on strings. -/
def strLe (a b : String) : Bool := strLeCh a.data b.data

/-- The order relation used to sort pandas group keys. -/
def strLeR (a b : String) : Prop := strLe a b = true

instance : DecidableRel strLeR := fun a b => by
  unfold strLeR
  infer_instance

/-- The sum of the amounts of the window's rows carrying a given month
name: one group of `df.groupby("month")["amount"].sum()`. -/
def groupSum (w : List Txn) (k : String) : ℚ :=
  ((w.filter (fun t => monthOf t == k)).map (fun t => t.amount)).sum

/-- The group keys of `df.groupby("month")`: the distinct month names of
the window, sorted lexicographically (pandas sorts group keys). -/
def monthKeysSorted (w : List Txn) : List String :=
  (uniqueFirst (monthNames w)).insertionSort strLeR

/-- `monthly_breakdown`: month name → summed amount, in pandas group-key
(sorted) order. -/
def monthlyBreakdown (w : List Txn) : List (String × ℚ) :=
  (monthKeysSorted w).map (fun k => (k, groupSum w k))

/-- `total_spent`: the sum of all amounts in the window. -/
def totalSpent (w : List Txn) : ℚ := (w.map (fun t => t.amount)).sum

/-- Occurrence count of one payment method in the window. -/
def pmCount (w : List Txn) (k : String) : Nat :=
  (w.filter (fun t => t.payment_method == k)).length

/-- `top_payment_methods` (`value_counts()`): payment method →
occurrence count, by descending count.  No claim constrains the order of
tied counts (pandas leaves it unspecified); the model uses a stable sort
over first-appearance order. -/
def topPaymentMethods (w : List Txn) : List (String × Nat) :=
  ((uniqueFirst (w.map (fun t => t.payment_method))).insertionSort
    (fun a b => pmCount w b ≤ pmCount w a)).map (fun k => (k, pmCount w k))

/-- The insights dictionary returned by `analyze_spending`. -/
structure Insights where
  total_spent : ℚ
  monthly_breakdown : List (String × ℚ)
  top_payment_methods : List (String × Nat)
deriving DecidableEq

/-- `analyze_spending`, applied to the user's 3-month window of
transactions as returned by the query (ordered by date ascending);
`none` models the "No transactions found" error on an empty window. -/
def analyze_spending (w : List Txn) : Option Insights :=
  if w.isEmpty then none
  else some ⟨totalSpent w, monthlyBreakdown w, topPaymentMethods w⟩

/-! ## Spending forecaster (`predict_future_spending`) -/

/-- `np.mean(df.groupby("month")["amount"].sum())`: the arithmetic mean
of the per-month sums. -/
def averageSpending (w : List Txn) : ℚ :=
  ((monthKeysSorted w).map (groupSum w)).sum / ((monthKeysSorted w).length : ℚ)

/-- `predict_future_spending`, applied to the user's 3-month window; `u`
is the value drawn by `np.random.uniform(0.9, 1.2)` at call time.
Returns `(average_spending, predicted_spending)`; `none` models the
"Not enough transaction history" error on an empty window. -/
def predict_future_spending (w : List Txn) (u : ℚ) : Option (ℚ × ℚ) :=
  if w.isEmpty then none
  else some (averageSpending w, averageSpending w * u)

/-! ## Budget evaluator (`generate_financial_advice`) -/

/-- Date comparison, used to model the SQL window condition
`date >= DATE_SUB(CURDATE(), INTERVAL n MONTH)` against an explicit
cutoff date. -/
def dateLe (a b : Date) : Bool :=
  decide (a.year < b.year ∨ (a.year = b.year ∧
    (a.month < b.month ∨ (a.month = b.month ∧ a.day ≤ b.day))))

/-- The dictionary returned by `generate_financial_advice`. -/
structure Advice where
  name : String
  salary : ℚ
  expense_limit : ℚ
  savings_goal : ℚ
  total_spent : ℚ
deriving DecidableEq

/-- The `SUM(amount)` of the user's transactions dated on or after
`cutoff` (the trailing 1-month window of `generate_financial_advice`);
`SUM` of no rows is `NULL`, turned into `0` by `or 0` in the source,
which coincides with the sum over the empty list here. -/
def windowSpend (db : DB) (cutoff : Date) (uid : Nat) : ℚ :=
  ((db.transactions.filter
    (fun t => t.user_id == uid && dateLe cutoff t.date)).map (fun t => t.amount)).sum

/-- The rows of the `SUM` window query of `generate_financial_advice`. -/
def windowRows (db : DB) (cutoff : Date) (uid : Nat) : List Txn :=
  db.transactions.filter (fun t => t.user_id == uid && dateLe cutoff t.date)

/-- `generate_financial_advice(user_id)`: fetch the user's `'May'`
budget row, the windowed spend sum (`windowSpend`), and the user row;
fail (`none`, the "No budget or user data found." error) when the
budget row or the user row is absent. -/
def generate_financial_advice (db : DB) (cutoff : Date) (uid : Nat) : Option Advice :=
  match db.budgets.find? (fun b => b.user_id == uid && b.month == "May"),
      db.users.find? (fun u => u.user_id == uid) with
  | some b, some u =>
    some ⟨u.fname ++ " " ++ u.lname, b.salary, b.expense_limit, b.savings_goal,
      windowSpend db cutoff uid⟩
  | _, _ => none

/-! ## Receipt generator (`generate_transaction_receipt`) -/

/-- The dictionary returned by `generate_transaction_receipt`. -/
structure Receipt where
  user_full_name : String
  transaction_id : Nat
  user_id : Nat
  date : String
  amount : ℚ
  payment_method : String
  description : String
  receipt_path : String
deriving DecidableEq

/-- Outcome of `generate_transaction_receipt`: the "No transaction
found" error, an unhandled exception (the source dereferences a missing
user row of a dangling `user_id` without a check), or the receipt
record. -/
inductive ReceiptOutcome where
  | notFound (msg : String)
  | crash
  | ok (r : Receipt)
deriving DecidableEq

/-- `generate_transaction_receipt(transaction_id)`.  Returns the outcome
together with the list of file paths written (the PDF output; its
rendered page content is not modelled, only the write event and the
returned fields). -/
def generate_transaction_receipt (db : DB) (tid : Nat) : ReceiptOutcome × List String :=
  match db.transactions.find? (fun t => t.transaction_id == tid) with
  | none => (.notFound ("No transaction found with ID " ++ Nat.repr tid ++ "."), [])
  | some t =>
    match db.users.find? (fun u => u.user_id == t.user_id) with
    | none => (.crash, [])
    | some u =>
      let path := "workflows/receipts/user" ++ Nat.repr t.user_id ++ "-transaction" ++
        Nat.repr tid ++ "-receipt.pdf"
      (.ok ⟨u.fname ++ " " ++ u.lname, tid, t.user_id, formatDate t.date, t.amount,
        t.payment_method, t.description, path⟩, [path])

/-! ## Non-greedy variant of the pattern, following the spec's words

§6 of the spec describes the description group as matched *non-greedily*
("one-or-more characters, non-greedy up to the next literal").  The
definitions below implement that reading — identical to `matchAt` and
`reSearch` except that candidate description lengths are tried from the
shortest up — for comparison with the source's greedy `(.+)`. -/

/-- Non-greedy `(.+?) via (\w+) today`: grow the description one
character at a time, trying the tail after each character. -/
def lazyDesc (pre : List Char) : List Char → Option (List Char × List Char × List Char)
  | [] => none
  | c :: cs =>
    if c = '\n' then none
    else
      match tryVia cs with
      | some (w, rest) => some (pre ++ [c], w, rest)
      | none => lazyDesc (pre ++ [c]) cs

/-- `matchAt` with the spec's non-greedy description. -/
def lazyMatchAt (cs : List Char) : Option MatchGroups :=
  match dropLit "User ".data cs with
  | none => none
  | some cs1 =>
    let g1 := cs1.takeWhile Char.isDigit
    if g1.isEmpty then none
    else
      match dropLit " spent ".data (cs1.dropWhile Char.isDigit) with
      | none => none
      | some cs2 =>
        let d1 := cs2.takeWhile Char.isDigit
        if d1.isEmpty then none
        else
          let fr := takeFrac (cs2.dropWhile Char.isDigit)
          match dropLit " ETB for ".data fr.2 with
          | none => none
          | some cs3 =>
            match lazyDesc [] cs3 with
            | none => none
            | some (g3, g4, rest) => some ⟨g1, d1 ++ fr.1, g3, g4, rest⟩

/-- `reSearch` with the spec's non-greedy description. -/
def lazySearch : List Char → Option MatchGroups
  | [] => lazyMatchAt []
  | c :: cs =>
    match lazyMatchAt (c :: cs) with
    | some g => some g
    | none => lazySearch cs

/-! ## Grammar sentences by their components

A sentence of the §6 intake grammar is determined by its four
components: user-id digits, amount (integer digits with an optional
fractional part), description, and payment-method token.
`grammarChars` assembles the sentence; the extraction theorem shows the
parser recovers exactly these components. -/

/-- The amount component: integer digits `d1`, then nothing (`none`),
or a dot followed by the (possibly empty) digits `f` (`some f`). -/
def numChars (d1 : List Char) (fp : Option (List Char)) : List Char :=
  d1 ++ (match fp with
    | none => []
    | some f => '.' :: f)

/-- The grammar sentence with the given components. -/
def grammarChars (u d1 : List Char) (fp : Option (List Char)) (desc meth : List Char) :
    List Char :=
  "User ".data ++ (u ++ (" spent ".data ++ (numChars d1 fp ++ (" ETB for ".data ++
    (desc ++ (" via ".data ++ (meth ++ " today".data)))))))

/-! ## Concrete data used by counterexamples and witnesses -/

/-- A concrete `datetime.date.today()`. -/
def exDate : Date := ⟨2025, 5, 27⟩

/-- A concrete rendering function for float amounts in log lines. -/
def exFmt : ℚ → String := fun _ => "250.0"

/-- A small database: one user, their `'May'` budget, no transactions. -/
def exDB : DB := ⟨[⟨1, "Abebe", "Kebede"⟩], [⟨1, "May", 1000, 800, 200⟩], []⟩

/-- A concrete 1-month window cutoff. -/
def exCutoff : Date := ⟨2025, 4, 27⟩

/-- A March transaction (amount 5). -/
def exMarTxn : Txn := ⟨1, 7, ⟨2025, 3, 10⟩, 5, "CBE", "books"⟩

/-- An April transaction (amount 7). -/
def exAprTxn : Txn := ⟨2, 7, ⟨2025, 4, 11⟩, 7, "Cash", "food"⟩

/-- A two-month window, ordered by date ascending (March before April). -/
def exWindow : List Txn := [exMarTxn, exAprTxn]

/-- A single-transaction window in May. -/
def exMayWindow : List Txn := [⟨3, 7, ⟨2025, 5, 10⟩, 250, "CBE", "groceries"⟩]

/-- A grammar sentence on which greedy and non-greedy description
matching disagree: its description component contains ` via ` and
` today`. -/
def ceInput : String := "User 1 spent 2 ETB for a via b today c via d today"

/-- An input that is not itself a grammar sentence but contains one. -/
def c10Input : String := "Yesterday User 7 spent 250 ETB for groceries via CBE today thanks"

/-! ## Claim theorems: the ledger writer -/

/-- **C2.** Given the input text
`"User 7 spent 250 ETB for groceries via CBE today"` and a working
connection, `record_transaction` inserts exactly one `Transaction` row
with `user_id` 7, amount 250, description `"groceries"`,
payment method `"CBE"` and today's date, returns that record, and
appends exactly one audit log line of the documented form (built by
`log_transaction`, ending in a newline). -/
theorem c2_scenario1 (today : Date) (now : String) (fmt : ℚ → String) (nid : Nat)
    (db : List Txn) (log : List String) :
    record_transaction true today now fmt nid
        "User 7 spent 250 ETB for groceries via CBE today" db log =
      (.ok ⟨nid, 7, today, 250, "CBE", "groceries"⟩,
       db ++ [⟨nid, 7, today, 250, "CBE", "groceries"⟩],
       log ++ [log_transaction now 7 (formatDate today) (fmt 250) "CBE" "groceries"]) := rfl

/-- **C3.** For every input text the pattern does not match,
`record_transaction` fails with the fixed format-describing message,
performs no insert into the `Transactions` table, and appends no log
line. -/
theorem c3_parse_failure (today : Date) (now : String) (fmt : ℚ → String) (nid : Nat)
    (input : String) (db : List Txn) (log : List String)
    (h : reSearch input.data = none) :
    record_transaction true today now fmt nid input db log =
      (.parseError invalidFormatMsg, db, log) := by
  simp [record_transaction, h]

/-- Witness for `c3_parse_failure` at the spec's concrete non-matching
text `"User 7 spent abc ETB for x via Y today"`. -/
theorem c3_parse_failure_witness :
    record_transaction true exDate "ts" exFmt 1
        "User 7 spent abc ETB for x via Y today" [] [] =
      (.parseError invalidFormatMsg, [], []) :=
  c3_parse_failure exDate "ts" exFmt 1 "User 7 spent abc ETB for x via Y today" [] []
    (by decide)

/-- **C7.** When the connection cannot be established,
`record_transaction` returns the connection failure before any other
work, for every input text (no `ParseError` even for non-matching text,
no insert, no log line). -/
theorem c7_connection_first (today : Date) (now : String) (fmt : ℚ → String) (nid : Nat)
    (input : String) (db : List Txn) (log : List String) :
    record_transaction false today now fmt nid input db log = (.connError, db, log) := rfl

/-- **C10.** Acceptance is not anchored to the whole input string:
an input with extra text before `User ` and after ` today` — hence not
itself a grammar sentence — still succeeds, recording the embedded
transaction. -/
theorem c10_unanchored_search :
    (record_transaction true exDate "ts" exFmt 1 c10Input [] []).1 =
      .ok ⟨1, 7, exDate, 250, "CBE", "groceries"⟩ ∧
    fullGrammarForm c10Input = false :=
  ⟨rfl, rfl⟩

/-! ## Claim theorems: the budget evaluator and the receipt generator -/

/-- **C8.** `generate_financial_advice` fails exactly when the user's
`'May'` budget row or the user row is absent; on success `total_spent`
is the sum of the user's transactions in the trailing window, and it is
0 when there are no such transactions (absence of spend rows is not an
error). -/
theorem c8_advice_no_data (db : DB) (cutoff : Date) (uid : Nat) :
    (generate_financial_advice db cutoff uid = none ↔
      db.budgets.find? (fun b => b.user_id == uid && b.month == "May") = none ∨
      db.users.find? (fun u => u.user_id == uid) = none) ∧
    (∀ a, generate_financial_advice db cutoff uid = some a →
      a.total_spent = ((windowRows db cutoff uid).map (fun t => t.amount)).sum) ∧
    (∀ a, generate_financial_advice db cutoff uid = some a →
      windowRows db cutoff uid = [] → a.total_spent = 0) := by
  cases hb : db.budgets.find? (fun b => b.user_id == uid && b.month == "May") with
  | none =>
    refine ⟨by simp [generate_financial_advice, hb], ?_, ?_⟩ <;>
      · intro a ha
        simp [generate_financial_advice, hb] at ha
  | some b =>
    cases hu : db.users.find? (fun u => u.user_id == uid) with
    | none =>
      refine ⟨by simp [generate_financial_advice, hb, hu], ?_, ?_⟩ <;>
        · intro a ha
          simp [generate_financial_advice, hb, hu] at ha
    | some u =>
      refine ⟨by simp [generate_financial_advice, hb, hu], ?_, ?_⟩
      · intro a ha
        simp [generate_financial_advice, hb, hu] at ha
        subst ha
        rfl
      · intro a ha hw
        simp [generate_financial_advice, hb, hu] at ha
        subst ha
        show windowSpend db cutoff uid = 0
        have : windowSpend db cutoff uid = ((windowRows db cutoff uid).map (fun t => t.amount)).sum := rfl
        rw [this, hw]
        rfl

/-- Witness for `c8_advice_no_data` at a concrete database in which the
budget row and the user row exist and the spend window is empty. -/
theorem c8_advice_no_data_witness :
    (Advice.mk "Abebe Kebede" 1000 800 200 0).total_spent =
      ((windowRows exDB exCutoff 1).map (fun t => t.amount)).sum ∧
    (Advice.mk "Abebe Kebede" 1000 800 200 0).total_spent = 0 :=
  ⟨(c8_advice_no_data exDB exCutoff 1).2.1 (Advice.mk "Abebe Kebede" 1000 800 200 0) rfl,
   (c8_advice_no_data exDB exCutoff 1).2.2 (Advice.mk "Abebe Kebede" 1000 800 200 0) rfl rfl⟩

/-- **C9.** For every transaction id that does not exist in the
`Transactions` table, `generate_transaction_receipt` fails with the
"No transaction found" error and writes no receipt file. -/
theorem c9_receipt_not_found (db : DB) (tid : Nat)
    (h : db.transactions.find? (fun t => t.transaction_id == tid) = none) :
    generate_transaction_receipt db tid =
      (.notFound ("No transaction found with ID " ++ Nat.repr tid ++ "."), []) := by
  unfold generate_transaction_receipt
  rw [h]

/-- Witness for `c9_receipt_not_found` at a database with no
transactions. -/
theorem c9_receipt_not_found_witness :
    generate_transaction_receipt exDB 5 =
      (.notFound ("No transaction found with ID " ++ Nat.repr 5 ++ "."), []) :=
  c9_receipt_not_found exDB 5 rfl

/-! ## Claim theorems: greedy versus non-greedy description matching -/

/-- **C1, counterexample.** `ceInput` is a grammar sentence (the match
at position 0 consumes the whole input), yet `record_transaction`
extracts the description `"a via b today c"` — up to the *last* viable
` via ` (greedy `(.+)`) — while the non-greedy reading of the spec
(`lazySearch`, description up to the *next* viable ` via `) extracts
`"a"`.  The two disagree, so the claim's "matched non-greedily" is
false of the code. -/
theorem c1_counterexample :
    fullGrammarForm ceInput = true ∧
    (record_transaction true exDate "ts" exFmt 1 ceInput [] []).1 =
      .ok ⟨1, 1, exDate, 2, "d", "a via b today c"⟩ ∧
    lazySearch ceInput.data =
      some ⟨"1".data, "2".data, "a".data, "b".data, " c via d today".data⟩ ∧
    ("a via b today c" : String) ≠ "a" :=
  ⟨rfl, rfl, rfl, by decide⟩

/-! ## Claim theorems: the spending aggregator's key order -/

/-- **C4, counterexample.** A window with a March transaction before an
April transaction (dates ascending): the keys of `monthly_breakdown`
come out in lexicographic order `["April", "March"]` (pandas sorts
group keys), not in first-appearance order `["March", "April"]` as the
claim states. -/
theorem c4_counterexample :
    dateLe exMarTxn.date exAprTxn.date = true ∧
    (monthlyBreakdown exWindow).map Prod.fst = ["April", "March"] ∧
    uniqueFirst (monthNames exWindow) = ["March", "April"] ∧
    (["April", "March"] : List String) ≠ ["March", "April"] := by
  exact ⟨rfl, by decide, by decide, by decide⟩

/-! ## Helper lemmas: first-appearance lists, string order, partition sums -/

theorem mem_uniqueFirstAux (x : String) :
    ∀ (l seen : List String), x ∈ uniqueFirstAux seen l ↔ x ∈ l ∧ x ∉ seen := by
  intro l
  induction l with
  | nil => intro seen; simp [uniqueFirstAux]
  | cons y ys ih =>
    intro seen
    by_cases hy : y ∈ seen
    · rw [uniqueFirstAux, if_pos hy, ih]
      simp only [List.mem_cons]
      constructor
      · rintro ⟨h1, h2⟩
        exact ⟨Or.inr h1, h2⟩
      · rintro ⟨h1 | h1, h2⟩
        · subst h1; exact absurd hy h2
        · exact ⟨h1, h2⟩
    · rw [uniqueFirstAux, if_neg hy]
      simp only [List.mem_cons, ih]
      constructor
      · rintro (rfl | ⟨h1, h2⟩)
        · exact ⟨Or.inl rfl, hy⟩
        · constructor
          · exact Or.inr h1
          · intro hc
            exact h2 (Or.inr hc)
      · rintro ⟨h1 | h1, h2⟩
        · exact Or.inl h1
        · by_cases hx : x = y
          · exact Or.inl hx
          · refine Or.inr ⟨h1, ?_⟩
            intro hc
            rcases hc with hc | hc
            · exact hx hc
            · exact h2 hc

theorem mem_uniqueFirst (x : String) (l : List String) : x ∈ uniqueFirst l ↔ x ∈ l := by
  rw [uniqueFirst, mem_uniqueFirstAux]
  simp

theorem nodup_uniqueFirstAux :
    ∀ (l seen : List String), (uniqueFirstAux seen l).Nodup := by
  intro l
  induction l with
  | nil => intro seen; simp [uniqueFirstAux]
  | cons y ys ih =>
    intro seen
    by_cases hy : y ∈ seen
    · rw [uniqueFirstAux, if_pos hy]
      exact ih seen
    · rw [uniqueFirstAux, if_neg hy]
      refine List.nodup_cons.mpr ⟨?_, ih (y :: seen)⟩
      intro hc
      exact ((mem_uniqueFirstAux y ys (y :: seen)).mp hc).2 (List.mem_cons_self y seen)

theorem nodup_uniqueFirst (l : List String) : (uniqueFirst l).Nodup :=
  nodup_uniqueFirstAux l []

theorem strLeCh_total : ∀ as bs : List Char, strLeCh as bs = true ∨ strLeCh bs as = true := by
  intro as
  induction as with
  | nil => intro bs; left; rfl
  | cons a as ih =>
    intro bs
    cases bs with
    | nil => right; rfl
    | cons b bs =>
      by_cases hab : a = b
      · subst hab
        rw [strLeCh, if_pos rfl, strLeCh, if_pos rfl]
        exact ih bs
      · rcases lt_trichotomy a b with h | h | h
        · left
          rw [strLeCh, if_neg hab]
          simpa using h
        · exact absurd h hab
        · right
          rw [strLeCh, if_neg (Ne.symm hab)]
          simpa using h

theorem strLeCh_trans :
    ∀ as bs cs : List Char, strLeCh as bs = true → strLeCh bs cs = true →
      strLeCh as cs = true := by
  intro as
  induction as with
  | nil => intro bs cs _ _; rfl
  | cons a as ih =>
    intro bs cs h1 h2
    cases bs with
    | nil => exact absurd h1 (by rw [strLeCh]; simp)
    | cons b bs =>
      cases cs with
      | nil => exact absurd h2 (by rw [strLeCh]; simp)
      | cons c cs =>
        rw [strLeCh] at h1 h2 ⊢
        by_cases hab : a = b
        · subst hab
          rw [if_pos rfl] at h1
          by_cases hbc : a = c
          · subst hbc
            rw [if_pos rfl] at h2 ⊢
            exact ih bs cs h1 h2
          · rw [if_neg hbc] at h2 ⊢
            exact h2
        · rw [if_neg hab] at h1
          have hab2 : a < b := by simpa using h1
          by_cases hbc : b = c
          · subst hbc
            rw [if_neg hab]
            simpa using hab2
          · rw [if_neg hbc] at h2
            have hbc2 : b < c := by simpa using h2
            have hac : a < c := lt_trans hab2 hbc2
            rw [if_neg (ne_of_lt hac)]
            simpa using hac

instance : IsTotal String strLeR :=
  ⟨fun a b => strLeCh_total a.data b.data⟩

instance : IsTrans String strLeR :=
  ⟨fun a b c => strLeCh_trans a.data b.data c.data⟩

theorem sum_filter_add_filter_not {α : Type} (key : α → String) (val : α → ℚ) (k : String) :
    ∀ l : List α,
      ((l.filter (fun x => key x == k)).map val).sum +
        ((l.filter (fun x => !(key x == k))).map val).sum = (l.map val).sum := by
  intro l
  induction l with
  | nil => simp
  | cons x xs ih =>
    by_cases h : key x = k
    · have hb : (key x == k) = true := beq_iff_eq.mpr h
      simp only [List.filter_cons, hb, Bool.not_true, if_true, if_false, List.map_cons,
        List.sum_cons]
      rw [if_neg (by decide : ¬ (false = true)), ← ih]
      ring
    · have hb : (key x == k) = false := beq_eq_false_iff_ne.mpr h
      simp only [List.filter_cons, hb, Bool.not_false, if_true, if_false, List.map_cons,
        List.sum_cons]
      rw [if_neg (by decide : ¬ (false = true)), ← ih]
      ring

theorem sum_over_groups {α : Type} (key : α → String) (val : α → ℚ) :
    ∀ (ks : List String) (l : List α), ks.Nodup → (∀ x ∈ l, key x ∈ ks) →
      (ks.map (fun k => ((l.filter (fun x => key x == k)).map val).sum)).sum =
        (l.map val).sum := by
  intro ks
  induction ks with
  | nil =>
    intro l _ hcov
    cases l with
    | nil => simp
    | cons a as => exact absurd (hcov a (List.mem_cons_self a as)) (List.not_mem_nil _)
  | cons k ks ih =>
    intro l hnd hcov
    have hk : k ∉ ks := (List.nodup_cons.mp hnd).1
    have hnd2 : ks.Nodup := (List.nodup_cons.mp hnd).2
    have hmap : ks.map (fun k2 => ((l.filter (fun x => key x == k2)).map val).sum) =
        ks.map (fun k2 =>
          (((l.filter (fun x => !(key x == k))).filter (fun x => key x == k2)).map val).sum) := by
      apply List.map_congr_left
      intro k2 hk2
      have hne : k2 ≠ k := fun h => hk (h ▸ hk2)
      rw [List.filter_filter]
      have heq : l.filter (fun a => (key a == k2) && !(key a == k)) =
          l.filter (fun x => key x == k2) := by
        apply List.filter_congr
        intro x _
        cases hkey : (key x == k2) with
        | false => simp
        | true =>
          have h1 : key x = k2 := beq_iff_eq.mp hkey
          have h2 : (key x == k) = false := beq_eq_false_iff_ne.mpr (h1 ▸ hne)
          simp [h2]
      rw [heq]
    have hcov2 : ∀ x ∈ l.filter (fun x => !(key x == k)), key x ∈ ks := by
      intro x hx
      rcases List.mem_filter.mp hx with ⟨hxl, hxk⟩
      rcases List.mem_cons.mp (hcov x hxl) with h | h
      · exfalso
        have hfalse : (key x == k) = false := by simpa using hxk
        rw [beq_iff_eq.mpr h] at hfalse
        exact absurd hfalse (by decide)
      · exact h
    rw [List.map_cons, List.sum_cons, hmap, ih (l.filter (fun x => !(key x == k))) hnd2 hcov2]
    exact sum_filter_add_filter_not key val k l

/-- On a non-empty window `analyze_spending` returns the insights
record. -/
theorem analyze_spending_eq (w : List Txn) (hw : w ≠ []) :
    analyze_spending w = some ⟨totalSpent w, monthlyBreakdown w, topPaymentMethods w⟩ := by
  have hne : w.isEmpty = false := by
    cases w with
    | nil => exact absurd rfl hw
    | cons a as => rfl
  simp [analyze_spending, hne]

/-- The keys of `monthly_breakdown` are the sorted distinct month
names. -/
theorem breakdown_keys (w : List Txn) :
    (monthlyBreakdown w).map Prod.fst = monthKeysSorted w := by
  rw [monthlyBreakdown, List.map_map]
  exact List.map_id _

/-- The values of `monthly_breakdown` are the per-key group sums. -/
theorem breakdown_values (w : List Txn) :
    (monthlyBreakdown w).map Prod.snd = (monthKeysSorted w).map (groupSum w) := by
  rw [monthlyBreakdown, List.map_map]
  rfl

/-- **C5.** For every non-empty window, the values of
`monthly_breakdown` sum to `total_spent`: the month-name groups
partition the window's transactions. -/
theorem c5_breakdown_partition (w : List Txn) (hw : w ≠ []) (ins : Insights)
    (h : analyze_spending w = some ins) :
    (ins.monthly_breakdown.map Prod.snd).sum = ins.total_spent := by
  rw [analyze_spending_eq w hw] at h
  injection h with h
  subst h
  show ((monthlyBreakdown w).map Prod.snd).sum = totalSpent w
  rw [breakdown_values]
  have hperm : List.Perm (monthKeysSorted w) (uniqueFirst (monthNames w)) :=
    List.perm_insertionSort strLeR _
  rw [(hperm.map (groupSum w)).sum_eq]
  have hcov : ∀ x ∈ w, monthOf x ∈ uniqueFirst (monthNames w) := by
    intro x hx
    rw [mem_uniqueFirst]
    exact List.mem_map_of_mem monthOf hx
  exact sum_over_groups monthOf (fun t => t.amount) (uniqueFirst (monthNames w)) w
    (nodup_uniqueFirst _) hcov

/-- Witness for `c5_breakdown_partition` at a concrete one-transaction
window. -/
theorem c5_breakdown_partition_witness :
    ((Insights.mk (totalSpent exMayWindow) (monthlyBreakdown exMayWindow)
        (topPaymentMethods exMayWindow)).monthly_breakdown.map Prod.snd).sum =
      (Insights.mk (totalSpent exMayWindow) (monthlyBreakdown exMayWindow)
        (topPaymentMethods exMayWindow)).total_spent :=
  c5_breakdown_partition exMayWindow (by decide) _ rfl

/-- **C4, amended.** For every non-empty window, the keys of
`monthly_breakdown` are exactly the month names occurring in the window
and appear in ascending code-point lexicographic order (the sorted
group-key order of the grouping), *not* in order of first appearance
on an ascending-date scan (see `c4_counterexample`). -/
theorem c4_amended_keys_sorted (w : List Txn) (hw : w ≠ []) (ins : Insights)
    (h : analyze_spending w = some ins) :
    List.Pairwise strLeR (ins.monthly_breakdown.map Prod.fst) ∧
    ∀ m, m ∈ ins.monthly_breakdown.map Prod.fst ↔ m ∈ monthNames w := by
  rw [analyze_spending_eq w hw] at h
  injection h with h
  subst h
  constructor
  · show List.Pairwise strLeR ((monthlyBreakdown w).map Prod.fst)
    rw [breakdown_keys]
    exact List.sorted_insertionSort strLeR _
  · intro m
    show m ∈ (monthlyBreakdown w).map Prod.fst ↔ m ∈ monthNames w
    rw [breakdown_keys]
    have hperm : List.Perm (monthKeysSorted w) (uniqueFirst (monthNames w)) :=
      List.perm_insertionSort strLeR _
    rw [hperm.mem_iff]
    exact mem_uniqueFirst m _

/-- Witness for `c4_amended_keys_sorted` at a concrete two-month
window. -/
theorem c4_amended_keys_sorted_witness :
    List.Pairwise strLeR ((Insights.mk (totalSpent exWindow) (monthlyBreakdown exWindow)
        (topPaymentMethods exWindow)).monthly_breakdown.map Prod.fst) ∧
    ∀ m, m ∈ (Insights.mk (totalSpent exWindow) (monthlyBreakdown exWindow)
        (topPaymentMethods exWindow)).monthly_breakdown.map Prod.fst ↔
      m ∈ monthNames exWindow :=
  c4_amended_keys_sorted exWindow (by decide) _ rfl

/-- **C6.** For every user with a non-empty 3-month window (and a
strictly positive average, so that the ratio is defined),
`predict_future_spending` returns `average_spending` equal to the
arithmetic mean of the per-month sums, and for every value `u` the
uniform multiplier can take (`0.9 ≤ u ≤ 1.2`) the ratio
`predicted_spending / average_spending` lies in `[0.9, 1.2]`. -/
theorem c6_forecast_ratio (w : List Txn) (u : ℚ) (hw : w ≠ [])
    (hpos : 0 < averageSpending w) (h1 : 9/10 ≤ u) (h2 : u ≤ 12/10) :
    predict_future_spending w u = some (averageSpending w, averageSpending w * u) ∧
    averageSpending w = ((uniqueFirst (monthNames w)).map (groupSum w)).sum /
      ((uniqueFirst (monthNames w)).length : ℚ) ∧
    9/10 ≤ averageSpending w * u / averageSpending w ∧
    averageSpending w * u / averageSpending w ≤ 12/10 := by
  have hne : w.isEmpty = false := by
    cases w with
    | nil => exact absurd rfl hw
    | cons a as => rfl
  have heq : averageSpending w * u / averageSpending w = u :=
    mul_div_cancel_left₀ u (ne_of_gt hpos)
  refine ⟨by simp [predict_future_spending, hne], ?_, ?_, ?_⟩
  · rw [averageSpending]
    have hperm : List.Perm (monthKeysSorted w) (uniqueFirst (monthNames w)) :=
      List.perm_insertionSort strLeR _
    rw [(hperm.map (groupSum w)).sum_eq, hperm.length_eq]
  · rw [heq]; exact h1
  · rw [heq]; exact h2

/-- Witness for `c6_forecast_ratio` at a concrete one-transaction
window and multiplier 1. -/
theorem c6_forecast_ratio_witness :
    9/10 ≤ averageSpending exMayWindow * 1 / averageSpending exMayWindow ∧
    averageSpending exMayWindow * 1 / averageSpending exMayWindow ≤ 12/10 := by
  have hpos : 0 < averageSpending exMayWindow := by
    have hav : averageSpending exMayWindow = 250 := by
      have hk : monthKeysSorted exMayWindow = ["May"] := by decide
      rw [averageSpending, hk]
      have hg : groupSum exMayWindow "May" = 250 := by
        simp [groupSum, exMayWindow, monthOf, monthName]
      simp [hg]
    rw [hav]
    norm_num
  exact ⟨(c6_forecast_ratio exMayWindow 1 (by decide) hpos (by norm_num) (by norm_num)).2.2.1,
    (c6_forecast_ratio exMayWindow 1 (by decide) hpos (by norm_num) (by norm_num)).2.2.2⟩

/-! ## Helper lemmas: the parsing engine on grammar sentences -/

theorem dropLit_append (p r : List Char) : dropLit p (p ++ r) = some r := by
  induction p with
  | nil => rfl
  | cons c cs ih => simp [dropLit, ih]

theorem dropLit_eq_some_iff : ∀ (p cs r : List Char), dropLit p cs = some r ↔ cs = p ++ r := by
  intro p
  induction p with
  | nil => intro cs r; simp [dropLit]
  | cons l ls ih =>
    intro cs r
    cases cs with
    | nil => simp [dropLit]
    | cons c cs =>
      by_cases h : c = l
      · subst h
        simp [dropLit, ih]
      · simp [dropLit, h]

theorem takeWhile_append_of (p : Char → Bool) :
    ∀ (xs ys : List Char), (∀ c ∈ xs, p c = true) →
      (∀ c, ys.head? = some c → p c = false) →
      (xs ++ ys).takeWhile p = xs ∧ (xs ++ ys).dropWhile p = ys := by
  intro xs
  induction xs with
  | nil =>
    intro ys _ hys
    cases ys with
    | nil => exact ⟨rfl, rfl⟩
    | cons c cs =>
      have hc := hys c rfl
      rw [List.nil_append]
      exact ⟨by simp [List.takeWhile_cons, hc], by simp [List.dropWhile_cons, hc]⟩
  | cons x xs ih =>
    intro ys hxs hys
    have hx : p x = true := hxs x (List.mem_cons_self x xs)
    have ih2 := ih ys (fun c hc => hxs c (List.mem_cons_of_mem x hc)) hys
    rw [List.cons_append]
    exact ⟨by simp [List.takeWhile_cons, hx, ih2.1], by simp [List.dropWhile_cons, hx, ih2.2]⟩

theorem isEmpty_false_of_ne_nil {l : List Char} (h : l ≠ []) : l.isEmpty = false := by
  cases l with
  | nil => exact absurd rfl h
  | cons a as => rfl

theorem head_not_of (p : Char → Bool) (a : Char) (ha : p a = false) (l1 l2 : List Char) :
    ∀ c, ((a :: l1) ++ l2).head? = some c → p c = false := by
  intro c hc
  have hc2 : some a = some c := hc
  injection hc2 with hc3
  rw [← hc3]
  exact ha

theorem word_ne_space {c : Char} (h : isWordCh c = true) : c ≠ ' ' := by
  intro hc
  subst hc
  exact absurd h (by decide)

theorem word_ne_newline {c : Char} (h : isWordCh c = true) : c ≠ '\n' := by
  intro hc
  subst hc
  exact absurd h (by decide)

theorem tryVia_correct (meth tail : List Char) (hm : meth ≠ [])
    (hmw : ∀ c ∈ meth, isWordCh c = true) :
    tryVia (" via ".data ++ (meth ++ (" today".data ++ tail))) = some (meth, tail) := by
  have hys : ∀ c, (" today".data ++ tail).head? = some c → isWordCh c = false :=
    head_not_of isWordCh ' ' (by decide) "today".data tail
  have htw := takeWhile_append_of isWordCh meth (" today".data ++ tail) hmw hys
  unfold tryVia
  rw [dropLit_append]
  dsimp only
  rw [htw.1, htw.2, isEmpty_false_of_ne_nil hm]
  dsimp only
  rw [dropLit_append, if_neg (by decide : ¬ (false = true))]

theorem tryVia_correct_nil (meth : List Char) (hm : meth ≠ [])
    (hmw : ∀ c ∈ meth, isWordCh c = true) :
    tryVia (" via ".data ++ (meth ++ " today".data)) = some (meth, []) := by
  have h := tryVia_correct meth [] hm hmw
  rwa [List.append_nil] at h

theorem tryVia_some_shape (cs w rest : List Char) (h : tryVia cs = some (w, rest)) :
    cs = " via ".data ++ (w ++ (" today".data ++ rest)) ∧ w ≠ [] := by
  unfold tryVia at h
  cases h1 : dropLit " via ".data cs with
  | none => rw [h1] at h; exact absurd h (by simp)
  | some cs1 =>
    rw [h1] at h
    dsimp only at h
    by_cases he : (cs1.takeWhile isWordCh).isEmpty
    · rw [if_pos he] at h
      exact absurd h (by simp)
    · rw [if_neg he] at h
      cases h2 : dropLit " today".data (cs1.dropWhile isWordCh) with
      | none => rw [h2] at h; exact absurd h (by simp)
      | some rest1 =>
        rw [h2] at h
        dsimp only at h
        injection h with h3
        injection h3 with hw hr
        subst hw
        subst hr
        constructor
        · have hc : cs = " via ".data ++ cs1 := (dropLit_eq_some_iff _ _ _).mp h1
          have hsplit : cs1.takeWhile isWordCh ++ cs1.dropWhile isWordCh = cs1 :=
            List.takeWhile_append_dropWhile isWordCh cs1
          have hd : cs1.dropWhile isWordCh = " today".data ++ rest1 :=
            (dropLit_eq_some_iff _ _ _).mp h2
          rw [hc]
          conv_lhs => rw [← hsplit]
          rw [hd]
        · intro hnil
          rw [hnil] at he
          exact he rfl

theorem tryVia_head_not_space (c : Char) (cs : List Char) (h : c ≠ ' ') :
    tryVia (c :: cs) = none := by
  cases hv : tryVia (c :: cs) with
  | none => rfl
  | some p =>
    exfalso
    obtain ⟨w, rest⟩ := p
    obtain ⟨hshape, _⟩ := tryVia_some_shape _ w rest hv
    have h2 : c :: cs = ' ' :: ("via ".data ++ (w ++ (" today".data ++ rest))) := hshape
    injection h2 with h3 _
    exact h h3

theorem tryVia_suffix_none :
    ∀ (meth : List Char), (∀ c ∈ meth, isWordCh c = true) →
      ∀ s, s <:+ (meth ++ " today".data) → tryVia s = none := by
  intro meth
  induction meth with
  | nil =>
    intro _ s hs
    rw [List.nil_append] at hs
    have hexp : " today".data = ' ' :: 't' :: 'o' :: 'd' :: 'a' :: 'y' :: [] := rfl
    rw [hexp] at hs
    simp only [List.suffix_cons_iff, List.suffix_nil] at hs
    rcases hs with rfl | rfl | rfl | rfl | rfl | rfl | rfl <;> decide
  | cons m ms ih =>
    intro hw s hs
    rw [List.cons_append] at hs
    rcases List.suffix_cons_iff.mp hs with h | h
    · subst h
      exact tryVia_head_not_space m _ (word_ne_space (hw m (List.mem_cons_self m ms)))
    · exact ih (fun c hc => hw c (List.mem_cons_of_mem m hc)) s h

theorem tryVia_space_meth_none (meth : List Char) (hmw : ∀ c ∈ meth, isWordCh c = true) :
    tryVia (' ' :: (meth ++ " today".data)) = none := by
  cases hv : tryVia (' ' :: (meth ++ " today".data)) with
  | none => rfl
  | some p =>
    exfalso
    obtain ⟨w, rest⟩ := p
    obtain ⟨hshape, _⟩ := tryVia_some_shape _ w rest hv
    have h2 : ' ' :: (meth ++ " today".data) =
        ' ' :: ('v' :: 'i' :: 'a' :: ' ' :: (w ++ (' ' :: 't' :: 'o' :: 'd' :: 'a' :: 'y' :: rest))) :=
      hshape
    injection h2 with _ h3
    rcases meth with _ | ⟨c1, _ | ⟨c2, _ | ⟨c3, _ | ⟨c4, ms⟩⟩⟩⟩
    · injection h3 with h4 _
      exact absurd h4 (by decide)
    · injection h3 with _ h4
      injection h4 with h5 _
      exact absurd h5 (by decide)
    · injection h3 with _ h4
      injection h4 with _ h5
      injection h5 with h6 _
      exact absurd h6 (by decide)
    · injection h3 with _ h4
      injection h4 with _ h5
      injection h5 with _ h6
      injection h6 with _ h7
      have hlen := congrArg List.length h7
      simp [List.length_append] at hlen
      omega
    · injection h3 with _ h4
      injection h4 with _ h5
      injection h5 with _ h6
      injection h6 with h7 _
      exact absurd h7 (word_ne_space (hmw c4 (by simp)))

theorem drop_append_len : ∀ (l1 l2 : List Char) (m : Nat),
    (l1 ++ l2).drop (l1.length + m) = l2.drop m := by
  intro l1
  induction l1 with
  | nil => intro l2 m; simp
  | cons c cs ih =>
    intro l2 m
    show (c :: (cs ++ l2)).drop (cs.length + 1 + m) = l2.drop m
    have harith : cs.length + 1 + m = (cs.length + m) + 1 := by omega
    rw [harith, List.drop_succ_cons, ih]

theorem tryVia_drop_none (desc meth : List Char) (hmw : ∀ c ∈ meth, isWordCh c = true) :
    ∀ j, desc.length < j →
      tryVia ((desc ++ (" via ".data ++ (meth ++ " today".data))).drop j) = none := by
  intro j hj
  obtain ⟨n, rfl⟩ : ∃ n, j = desc.length + (n + 1) := ⟨j - desc.length - 1, by omega⟩
  rw [drop_append_len]
  rcases n with _ | _ | _ | _ | m
  · exact tryVia_head_not_space 'v' ('i' :: 'a' :: ' ' :: (meth ++ " today".data)) (by decide)
  · exact tryVia_head_not_space 'i' ('a' :: ' ' :: (meth ++ " today".data)) (by decide)
  · exact tryVia_head_not_space 'a' (' ' :: (meth ++ " today".data)) (by decide)
  · exact tryVia_space_meth_none meth hmw
  · exact tryVia_suffix_none meth hmw ((meth ++ " today".data).drop m)
      (List.drop_suffix m (meth ++ " today".data))

theorem descSearch_succ (cs : List Char) (i : Nat) :
    descSearch cs (i + 1) =
      if (cs.take (i + 1)).all (fun c => c ≠ '\n') then
        match tryVia (cs.drop (i + 1)) with
        | some (w, rest) => some (cs.take (i + 1), w, rest)
        | none => descSearch cs i
      else descSearch cs i := rfl

theorem takeFrac_head_not_dot (c : Char) (l1 l2 : List Char) (h : c ≠ '.') :
    takeFrac ((c :: l1) ++ l2) = ([], (c :: l1) ++ l2) := by
  show takeFrac (c :: (l1 ++ l2)) = ([], c :: (l1 ++ l2))
  rw [takeFrac, if_neg h]

theorem descSearch_correct (desc meth : List Char) (hd : desc ≠ [])
    (hdn : ∀ c ∈ desc, c ≠ '\n') (hm : meth ≠ []) (hmw : ∀ c ∈ meth, isWordCh c = true) :
    ∀ k, descSearch (desc ++ (" via ".data ++ (meth ++ " today".data))) (desc.length + k) =
      some (desc, meth, []) := by
  have hall : ∀ c ∈ desc ++ (" via ".data ++ (meth ++ " today".data)), c ≠ '\n' := by
    intro c hc
    rcases List.mem_append.mp hc with h | h
    · exact hdn c h
    · rcases List.mem_append.mp h with h | h
      · have hv : c = ' ' ∨ c = 'v' ∨ c = 'i' ∨ c = 'a' ∨ c = ' ' := by simpa using h
        rcases hv with rfl | rfl | rfl | rfl | rfl <;> decide
      · rcases List.mem_append.mp h with h | h
        · exact word_ne_newline (hmw c h)
        · have hv : c = ' ' ∨ c = 't' ∨ c = 'o' ∨ c = 'd' ∨ c = 'a' ∨ c = 'y' := by
            simpa using h
          rcases hv with rfl | rfl | rfl | rfl | rfl | rfl <;> decide
  have hallTake : ∀ j,
      (((desc ++ (" via ".data ++ (meth ++ " today".data))).take j).all
        (fun c => c ≠ '\n')) = true := by
    intro j
    rw [List.all_eq_true]
    intro c hc
    have hcm := hall c (List.take_subset j _ hc)
    simpa using hcm
  intro k
  induction k with
  | zero =>
    have hpos : 0 < desc.length := List.length_pos.mpr hd
    have hi : desc.length - 1 + 1 = desc.length := Nat.succ_pred_eq_of_pos hpos
    rw [Nat.add_zero, ← hi, descSearch_succ, hi, List.take_left, List.drop_left]
    have hcond : (desc.all (fun c => c ≠ '\n')) = true := by
      rw [List.all_eq_true]
      intro c hc
      simpa using hdn c hc
    rw [if_pos hcond, tryVia_correct_nil meth hm hmw]
  | succ k ih =>
    have hidx : desc.length + (k + 1) = (desc.length + k) + 1 := by omega
    rw [hidx, descSearch_succ, if_pos (hallTake (desc.length + k + 1)),
      tryVia_drop_none desc meth hmw (desc.length + k + 1) (by omega)]
    exact ih

theorem takeFrac_etb (X : List Char) :
    takeFrac (" ETB for ".data ++ X) = ([], " ETB for ".data ++ X) := by
  show takeFrac (' ' :: ("ETB for ".data ++ X)) = ([], ' ' :: ("ETB for ".data ++ X))
  rw [takeFrac, if_neg (by decide : ¬ (' ' = '.'))]

theorem takeFrac_dot (f X : List Char) (hf : ∀ c ∈ f, c.isDigit = true)
    (hX : ∀ c, X.head? = some c → c.isDigit = false) :
    takeFrac (('.' :: f) ++ X) = ('.' :: f, X) := by
  show takeFrac ('.' :: (f ++ X)) = ('.' :: f, X)
  rw [takeFrac, if_pos rfl]
  have h := takeWhile_append_of Char.isDigit f X hf hX
  rw [h.1, h.2]

theorem matchAt_grammar (u d1 : List Char) (fp : Option (List Char)) (desc meth : List Char)
    (hu : u ≠ []) (hud : ∀ c ∈ u, c.isDigit = true)
    (hd1 : d1 ≠ []) (hd1d : ∀ c ∈ d1, c.isDigit = true)
    (hfp : ∀ f, fp = some f → ∀ c ∈ f, c.isDigit = true)
    (hdesc : desc ≠ []) (hdn : ∀ c ∈ desc, c ≠ '\n')
    (hm : meth ≠ []) (hmw : ∀ c ∈ meth, isWordCh c = true) :
    matchAt (grammarChars u d1 fp desc meth) = some ⟨u, numChars d1 fp, desc, meth, []⟩ := by
  cases fp with
  | none =>
    have hnum : numChars d1 none = d1 ++ [] := rfl
    unfold matchAt grammarChars
    rw [hnum, List.append_nil, dropLit_append]
    dsimp only
    have h1 := takeWhile_append_of Char.isDigit u
      (" spent ".data ++ (d1 ++ (" ETB for ".data ++
        (desc ++ (" via ".data ++ (meth ++ " today".data)))))) hud
      (head_not_of Char.isDigit ' ' (by decide) "spent ".data _)
    rw [h1.1, h1.2, isEmpty_false_of_ne_nil hu, if_neg (by decide : ¬ (false = true)),
      dropLit_append]
    dsimp only
    have h2 := takeWhile_append_of Char.isDigit d1
      (" ETB for ".data ++ (desc ++ (" via ".data ++ (meth ++ " today".data)))) hd1d
      (head_not_of Char.isDigit ' ' (by decide) "ETB for ".data _)
    rw [h2.1, h2.2, isEmpty_false_of_ne_nil hd1, if_neg (by decide : ¬ (false = true)),
      takeFrac_etb]
    dsimp only
    rw [dropLit_append]
    dsimp only
    rw [List.length_append, descSearch_correct desc meth hdesc hdn hm hmw]
    dsimp only
    rw [List.append_nil]
  | some f =>
    have hf : ∀ c ∈ f, c.isDigit = true := hfp f rfl
    have hnum : numChars d1 (some f) = d1 ++ ('.' :: f) := rfl
    unfold matchAt grammarChars
    rw [hnum, List.append_assoc, dropLit_append]
    dsimp only
    have h1 := takeWhile_append_of Char.isDigit u
      (" spent ".data ++ (d1 ++ (('.' :: f) ++ (" ETB for ".data ++
        (desc ++ (" via ".data ++ (meth ++ " today".data))))))) hud
      (head_not_of Char.isDigit ' ' (by decide) "spent ".data _)
    rw [h1.1, h1.2, isEmpty_false_of_ne_nil hu, if_neg (by decide : ¬ (false = true)),
      dropLit_append]
    dsimp only
    have h2 := takeWhile_append_of Char.isDigit d1
      (('.' :: f) ++ (" ETB for ".data ++
        (desc ++ (" via ".data ++ (meth ++ " today".data))))) hd1d
      (head_not_of Char.isDigit '.' (by decide) f _)
    rw [h2.1, h2.2, isEmpty_false_of_ne_nil hd1, if_neg (by decide : ¬ (false = true)),
      takeFrac_dot f _ hf (head_not_of Char.isDigit ' ' (by decide) "ETB for ".data _)]
    dsimp only
    rw [dropLit_append]
    dsimp only
    rw [List.length_append, descSearch_correct desc meth hdesc hdn hm hmw]

theorem reSearch_of_matchAt (c : Char) (cs : List Char) (g : MatchGroups)
    (h : matchAt (c :: cs) = some g) : reSearch (c :: cs) = some g := by
  rw [reSearch, h]

/-- **C1, amended.** For every sentence of the §6 grammar — assembled
from its components by `grammarChars` — `record_transaction` extracts
`user_id` as the integer formed by the digits after `User `, the amount
as the decimal number before ` ETB for `, the payment method as the
word-character token before ` today`, and the description as the text
between ` ETB for ` and the *last* literal ` via ` for which the
remainder ` via <token> today` completes the match (greedy `(.+)`);
each extracted field equals the corresponding component of the
sentence's decomposition, and the extracted amount equals the decimal
value of the amount component. -/
theorem c1_amended_extraction (u d1 : List Char) (fp : Option (List Char))
    (desc meth : List Char) (today : Date) (now : String) (fmt : ℚ → String) (nid : Nat)
    (db : List Txn) (log : List String)
    (hu : u ≠ []) (hud : ∀ c ∈ u, c.isDigit = true)
    (hd1 : d1 ≠ []) (hd1d : ∀ c ∈ d1, c.isDigit = true)
    (hfp : ∀ f, fp = some f → ∀ c ∈ f, c.isDigit = true)
    (hdesc : desc ≠ []) (hdn : ∀ c ∈ desc, c ≠ '\n')
    (hm : meth ≠ []) (hmw : ∀ c ∈ meth, isWordCh c = true) :
    record_transaction true today now fmt nid ⟨grammarChars u d1 fp desc meth⟩ db log =
      (.ok ⟨nid, digitsToNat u, today, decValue (numChars d1 fp), meth.asString,
        desc.asString⟩,
       db ++ [⟨nid, digitsToNat u, today, decValue (numChars d1 fp), meth.asString,
         desc.asString⟩],
       log ++ [log_transaction now (digitsToNat u) (formatDate today)
         (fmt (decValue (numChars d1 fp))) meth.asString desc.asString]) ∧
    decValue (numChars d1 fp) =
      (digitsToNat d1 : ℚ) +
        (digitsToNat (fp.getD []) : ℚ) / (10 : ℚ) ^ (fp.getD []).length := by
  constructor
  · have hsearch : reSearch (grammarChars u d1 fp desc meth) =
        some ⟨u, numChars d1 fp, desc, meth, []⟩ :=
      reSearch_of_matchAt 'U' _ _
        (matchAt_grammar u d1 fp desc meth hu hud hd1 hd1d hfp hdesc hdn hm hmw)
    have hred : record_transaction true today now fmt nid
        ⟨grammarChars u d1 fp desc meth⟩ db log =
        match reSearch (grammarChars u d1 fp desc meth) with
        | none => (.parseError invalidFormatMsg, db, log)
        | some g =>
          (.ok ⟨nid, digitsToNat g.g1, today, decValue g.g2, g.g4.asString, g.g3.asString⟩,
           db ++ [⟨nid, digitsToNat g.g1, today, decValue g.g2, g.g4.asString,
             g.g3.asString⟩],
           log ++ [log_transaction now (digitsToNat g.g1) (formatDate today)
             (fmt (decValue g.g2)) g.g4.asString g.g3.asString]) := rfl
    rw [hred, hsearch]
  · cases fp with
    | none =>
      have hnum : numChars d1 none = d1 ++ [] := rfl
      rw [hnum, List.append_nil]
      have h2 := takeWhile_append_of Char.isDigit d1 [] hd1d
        (by intro c hc; exact absurd hc (by simp))
      rw [List.append_nil] at h2
      unfold decValue
      dsimp only
      rw [h2.1, h2.2]
      show (digitsToNat d1 : ℚ) =
        (digitsToNat d1 : ℚ) + ((0 : Nat) : ℚ) / (10 : ℚ) ^ (0 : Nat)
      norm_num
    | some f =>
      have hf : ∀ c ∈ f, c.isDigit = true := hfp f rfl
      have hnum : numChars d1 (some f) = d1 ++ ('.' :: f) := rfl
      rw [hnum]
      unfold decValue
      dsimp only
      have h2 := takeWhile_append_of Char.isDigit d1 ('.' :: f) hd1d
        (by
          intro c hc
          have hc2 : some '.' = some c := hc
          injection hc2 with hc3
          rw [← hc3]
          decide)
      rw [h2.1, h2.2]
      rfl

/-- Witness for `c1_amended_extraction` at the concrete components
`u = "7"`, amount `"2.5"`, description `"groceries"`, method `"CBE"`. -/
theorem c1_amended_extraction_witness :
    decValue (numChars "2".data (some "5".data)) =
      (digitsToNat "2".data : ℚ) +
        (digitsToNat ((some "5".data).getD []) : ℚ) /
          (10 : ℚ) ^ ((some "5".data).getD []).length :=
  (c1_amended_extraction "7".data "2".data (some "5".data) "groceries".data "CBE".data
    exDate "ts" exFmt 1 [] [] (by decide) (by decide) (by decide) (by decide)
    (by
      intro f hf
      injection hf with h
      subst h
      decide)
    (by decide) (by decide) (by decide) (by decide)).2
